import Mathlib

/-!
Verification of the iterative magnitude pruning loop
(`src/iterative_pruning.py`) against its natural-language specification.

Shallow embedding conventions:
* a parameter tensor is a flattened `List ℚ`; a model is its ordered list of
  named parameters (`model.named_parameters()` order);
* a parameter is prunable when the substring "weight" occurs in its name;
* `np.percentile` is modelled with the default linear-interpolation method
  over exact rationals;
* the optimizer step for SGD(lr, momentum, weight_decay) follows the PyTorch
  update rule with lazily created momentum buffers;
* gradients, the forward pass and the cross-entropy criterion are external
  collaborators and enter the definitions as explicit arguments.
-/

abbrev Tensor := List ℚ

abbrev Model := List (String × Tensor)

/-- Substring test on character lists, used to model the Python expression
`"weight" in name` that classifies a parameter as prunable. -/
def containsSub (pat : List Char) : List Char → Bool
  | [] => pat.isEmpty
  | c :: rest => pat.isPrefixOf (c :: rest) || containsSub pat rest

/-- Classification of a named parameter as a prunable weight tensor:
the source tests `if "weight" in name`. -/
def hasWeight (n : String) : Bool := containsSub "weight".toList n.toList

/-- The ordered sublist of prunable parameters of a model, in
`named_parameters()` iteration order. -/
def prunables (m : Model) : Model := m.filter (fun p => hasWeight p.1)

/-- Insertion step of an ascending insertion sort. -/
def insertSorted (x : ℚ) : List ℚ → List ℚ
  | [] => [x]
  | y :: ys => if x ≤ y then x :: y :: ys else y :: insertSorted x ys

/-- Ascending sort of a rational list (models the sort inside
`np.percentile`). -/
def sortAsc (l : List ℚ) : List ℚ := l.foldr insertSorted []

/-- Model of `np.percentile(a, q)` with the default linear interpolation
method: for sorted data `s` of length `n`, the rank is
`h = (n - 1) * q / 100` and the result interpolates between the entries at
`⌊h⌋` and `⌈h⌉`. -/
def npPercentile (a : List ℚ) (q : ℚ) : ℚ :=
  let s := sortAsc a
  let h : ℚ := ((s.length : ℚ) - 1) * q / 100
  let vlo := s.getD (⌊h⌋).toNat 0
  let vhi := s.getD (⌈h⌉).toNat 0
  vlo + (h - (⌊h⌋ : ℚ)) * (vhi - vlo)

/-- Concatenation of the flattened prunable weight tensors, modelling the
`np.concatenate` accumulation of `flat_model_weights` (source lines 63-67). -/
def flatWeights (m : Model) : List ℚ :=
  m.foldl (fun acc p => if hasWeight p.1 then acc ++ p.2 else acc) []

/-- The per-round magnitude threshold:
`np.percentile(abs(flat_model_weights), weight_fractions[pruning_iter])`
(source line 68); `q` is the schedule value for the round. -/
def threshold (m : Model) (q : ℚ) : ℚ :=
  npPercentile ((flatWeights m).map (fun x => |x|)) q

/-- One keep-mask: `weight_copy.gt(threshold).float()` (source line 75). -/
def maskOf (thr : ℚ) (t : Tensor) : Tensor :=
  t.map (fun x => if thr < |x| then (1 : ℚ) else 0)

/-- Accumulator of the mask-building loop (source lines 70-80): the mask
list, the running zero / total counters, and `nperm`, which counts how many
times control enters the `masks = permute_masks(masks)` branch. -/
structure BuildState where
  masks : List Tensor
  zeros : ℕ
  total : ℕ
  nperm : ℕ
deriving DecidableEq

/-- Body of the mask-building loop over `model.named_parameters()`
(source lines 72-80); `f` stands for the external `permute_masks`. -/
def buildStep (random : String) (f : List Tensor → List Tensor) (thr : ℚ)
    (st : BuildState) (p : String × Tensor) : BuildState :=
  if hasWeight p.1 then
    let mask := maskOf thr p.2
    let st' : BuildState :=
      { masks := st.masks ++ [mask]
        zeros := st.zeros + (mask.length - (mask.filter (fun x => x != 0)).length)
        total := st.total + mask.length
        nperm := st.nperm }
    if random ≠ "false" then
      { st' with masks := f st'.masks, nperm := st'.nperm + 1 }
    else st'
  else st

/-- The complete mask-building pass of one pruning round
(source lines 62-80). -/
def buildMasksLoop (m : Model) (random : String)
    (f : List Tensor → List Tensor) (q : ℚ) : BuildState :=
  m.foldl (buildStep random f (threshold m q)) ⟨[], 0, 0, 0⟩

/-- Specification-side restatement of the Mask Builder contract (spec §4.2):
one keep-mask per prunable tensor, in iteration order, each entry 1 exactly
where the absolute weight exceeds the global percentile threshold. -/
def maskBuilderSpec (m : Model) (q : ℚ) : List Tensor :=
  (prunables m).map (fun p => maskOf (threshold m q) p.2)

/-- The in-place masking sweep `params.data.mul_(masks[layer_index])` over
`named_parameters()`, with `layer_index` advanced only on prunable tensors
(source lines 103-107 and 116-120). -/
def applyMasksGo (masks : List Tensor) : ℕ → Model → Model
  | _, [] => []
  | idx, (n, t) :: ps =>
    if hasWeight n then
      (n, List.zipWith (fun ti mi => ti * mi) t (masks.getD idx [])) ::
        applyMasksGo masks (idx + 1) ps
    else (n, t) :: applyMasksGo masks idx ps

/-- Masking sweep started at `layer_index = 0`. -/
def applyMasks (masks : List Tensor) (m : Model) : Model :=
  applyMasksGo masks 0 m

/- ### Helper lemmas about the mask builder and the masking sweep -/

theorem mem_insertSorted {x a : ℚ} {l : List ℚ}
    (h : x ∈ insertSorted a l) : x = a ∨ x ∈ l := by
  induction l with
  | nil => simpa [insertSorted] using h
  | cons y ys ih =>
    rw [insertSorted] at h
    split at h
    · simpa using h
    · rcases List.mem_cons.1 h with h1 | h1
      · exact Or.inr (by simp [h1])
      · rcases ih h1 with h2 | h2
        · exact Or.inl h2
        · exact Or.inr (List.mem_cons_of_mem _ h2)

theorem sortAsc_nonneg {l : List ℚ} (h : ∀ x ∈ l, 0 ≤ x) :
    ∀ x ∈ sortAsc l, 0 ≤ x := by
  induction l with
  | nil => simp [sortAsc]
  | cons a t ih =>
    intro x hx
    have hx' : x ∈ insertSorted a (sortAsc t) := hx
    rcases mem_insertSorted hx' with h1 | h1
    · exact h1 ▸ h a (by simp)
    · exact ih (fun y hy => h y (List.mem_cons_of_mem _ hy)) x h1

theorem getD_nonneg {s : List ℚ} (h : ∀ x ∈ s, 0 ≤ x) (i : ℕ) :
    0 ≤ s.getD i 0 := by
  by_cases hi : i < s.length
  · rw [List.getD_eq_getElem _ _ hi]
    exact h _ (List.getElem_mem hi)
  · rw [List.getD_eq_default _ _ (le_of_not_lt hi)]

theorem npPercentile_nonneg {a : List ℚ} (q : ℚ)
    (h : ∀ x ∈ a, 0 ≤ x) : 0 ≤ npPercentile a q := by
  unfold npPercentile
  have hs : ∀ x ∈ sortAsc a, 0 ≤ x := sortAsc_nonneg h
  set hq : ℚ := (((sortAsc a).length : ℚ) - 1) * q / 100 with hdef
  have h1 : (⌊hq⌋ : ℚ) ≤ hq := Int.floor_le hq
  have h2 : hq < (⌊hq⌋ : ℚ) + 1 := Int.lt_floor_add_one hq
  have hvlo := getD_nonneg hs (⌊hq⌋).toNat
  have hvhi := getD_nonneg hs (⌈hq⌉).toNat
  set vlo := (sortAsc a).getD (⌊hq⌋).toNat 0
  set vhi := (sortAsc a).getD (⌈hq⌉).toNat 0
  have ht : 0 ≤ hq - (⌊hq⌋ : ℚ) := by linarith
  have ht1 : hq - (⌊hq⌋ : ℚ) < 1 := by linarith
  nlinarith [mul_nonneg ht hvhi, mul_nonneg (by linarith : (0:ℚ) ≤ 1 - (hq - (⌊hq⌋ : ℚ))) hvlo]

theorem threshold_nonneg (m : Model) (q : ℚ) : 0 ≤ threshold m q := by
  refine npPercentile_nonneg q ?_
  intro x hx
  rcases List.mem_map.1 hx with ⟨y, _, rfl⟩
  exact abs_nonneg y

theorem foldl_buildStep_false (f : List Tensor → List Tensor) (thr : ℚ) :
    ∀ (l : Model) (st : BuildState),
      (l.foldl (buildStep "false" f thr) st).masks =
        st.masks ++ (l.filter (fun p => hasWeight p.1)).map (fun p => maskOf thr p.2) := by
  intro l
  induction l with
  | nil => intro st; simp
  | cons p ps ih =>
    intro st
    by_cases hw : hasWeight p.1
    · have hstep : buildStep "false" f thr st p =
        { masks := st.masks ++ [maskOf thr p.2]
          zeros := st.zeros + ((maskOf thr p.2).length -
            ((maskOf thr p.2).filter (fun x => x != 0)).length)
          total := st.total + (maskOf thr p.2).length
          nperm := st.nperm } := by
        simp [buildStep, hw]
      rw [List.foldl_cons, hstep, ih, List.filter_cons_of_pos (by simpa using hw)]
      simp
    · have hstep : buildStep "false" f thr st p = st := by
        simp [buildStep, hw]
      rw [List.foldl_cons, hstep, ih, List.filter_cons_of_neg (by simpa using hw)]

theorem buildMasksLoop_masks (m : Model) (f : List Tensor → List Tensor)
    (q : ℚ) :
    (buildMasksLoop m "false" f q).masks = maskBuilderSpec m q := by
  unfold buildMasksLoop maskBuilderSpec prunables
  rw [foldl_buildStep_false]
  simp

theorem prunables_applyMasksGo (masks : List Tensor) (m : Model) :
    ∀ (idx j : ℕ),
      (prunables (applyMasksGo masks idx m)).getD j ("", []) =
        (((prunables m).getD j ("", [])).1,
          List.zipWith (fun ti mi => ti * mi)
            ((prunables m).getD j ("", [])).2 (masks.getD (idx + j) [])) := by
  induction m with
  | nil =>
    intro idx j
    simp [applyMasksGo, prunables, List.getD]
  | cons p ps ih =>
    intro idx j
    obtain ⟨n, t⟩ := p
    by_cases hw : hasWeight n
    · cases j with
      | zero =>
        simp [applyMasksGo, prunables, List.filter_cons, hw]
      | succ j' =>
        have hidx : idx + 1 + j' = idx + (j' + 1) := by omega
        simpa [applyMasksGo, prunables, List.filter_cons, hw, hidx]
          using ih (idx + 1) j'
    · simpa [applyMasksGo, prunables, List.filter_cons, hw] using ih idx j

theorem prunables_applyMasksGo_length (masks : List Tensor) (m : Model) :
    ∀ (idx : ℕ),
      (prunables (applyMasksGo masks idx m)).length = (prunables m).length := by
  induction m with
  | nil => intro idx; simp [applyMasksGo]
  | cons p ps ih =>
    intro idx
    obtain ⟨n, t⟩ := p
    by_cases hw : hasWeight n
    · simp [applyMasksGo, prunables, List.filter_cons, hw]
      exact ih (idx + 1)
    · simpa [applyMasksGo, prunables, List.filter_cons, hw] using ih idx

theorem applyMasks_masked_zero (masks : List Tensor) (m : Model) (j k : ℕ)
    (hlen : (masks.getD j []).length = ((prunables m).getD j ("", [])).2.length)
    (hk : k < (masks.getD j []).length)
    (hmask : (masks.getD j []).getD k 1 = 0) :
    (((prunables (applyMasks masks m)).getD j ("", [])).2).getD k 1 = 0 := by
  unfold applyMasks
  rw [prunables_applyMasksGo masks m 0 j]
  have hzip : k < (List.zipWith (fun ti mi => ti * mi)
      ((prunables m).getD j ("", [])).2 ((masks.getD (0 + j) []))).length := by
    rw [List.length_zipWith]
    simp only [Nat.zero_add]
    omega
  rw [List.getD_eq_getElem _ _ hzip, List.getElem_zipWith]
  have hk' : k < (masks.getD (0 + j) []).length := by simpa using hk
  have : (masks.getD (0 + j) [])[k] = 0 := by
    have := hmask
    rw [List.getD_eq_getElem _ _ hk] at this
    simpa using this
  simp only [this, mul_zero]

/- ### The masked training step (source lines 96-112) -/

/-- PyTorch SGD update for one parameter tensor with hyperparameters
`(lr, mom, wd)` = (learning rate, momentum, weight decay), dampening 0 and
no Nesterov: `d = g + wd * p`; the momentum buffer is created as `d` on the
first step and updated as `mom * buf + d` afterwards; `p` becomes
`p - lr * buf`. -/
def sgdStepParam (lr mom wd : ℚ) (t g : Tensor) (buf : Option Tensor) :
    Tensor × Tensor :=
  let d := List.zipWith (fun gi pi => gi + wd * pi) g t
  let buf' := match buf with
    | none => d
    | some b => List.zipWith (fun bi di => mom * bi + di) b d
  (List.zipWith (fun pi bi => pi - lr * bi) t buf', buf')

/-- SGD step over all model parameters (the optimizer holds
`model.parameters()`, source line 52), threading the gradient list and the
momentum-buffer list positionally. -/
def sgdStepGo (lr mom wd : ℚ) :
    Model → List Tensor → List (Option Tensor) → Model × List (Option Tensor)
  | [], _, _ => ([], [])
  | (n, t) :: ps, grads, bufs =>
    let r := sgdStepParam lr mom wd t (grads.headD []) (bufs.headD none)
    let rest := sgdStepGo lr mom wd ps grads.tail bufs.tail
    ((n, r.1) :: rest.1, some r.2 :: rest.2)

/-- One training batch of round `pruning_iter` (source lines 96-112):
zero the gradients, reapply the masks to every prunable tensor when
`pruning_iter ≠ 0`, run forward / backward (the resulting gradients `grads`
are an external input), then take the optimizer step. The mask is NOT
reapplied after the step. -/
def trainBatchStep (lr mom wd : ℚ) (masks : List Tensor) (pruning_iter : ℕ)
    (grads : List Tensor) (m : Model) (bufs : List (Option Tensor)) :
    Model × List (Option Tensor) :=
  let m1 := if pruning_iter ≠ 0 then applyMasks masks m else m
  sgdStepGo lr mom wd m1 grads bufs

/- ### Round construction: fresh optimizer and checkpoint read
(source lines 49-60, 121) -/

/-- A persisted checkpoint: the dictionary saved at source line 121 with
keys `epoch`, `model_state_dict`, `optimizer_state_dict` (the optimizer
state is modelled by its momentum-buffer list). -/
structure Checkpoint where
  epoch : ℕ
  model_state_dict : Model
  optimizer_state_dict : List (Option Tensor)

/-- Optimizer objects as constructed at source lines 51-54, carrying their
hyperparameters and their lazily created per-parameter state. -/
inductive Optimizer where
  | sgd (lr momentum weight_decay : ℚ) (bufs : List (Option Tensor))
  | adam (lr weight_decay : ℚ) (state : List (Option (Tensor × Tensor)))
deriving DecidableEq

/-- Optimizer construction / dispatch (source lines 51-56): a freshly
constructed optimizer has no per-parameter state yet. -/
def mkOptimizer : String → Except String Optimizer
  | "sgd" => .ok (.sgd (1/10) (9/10) (1/10000) [])
  | "adam" => .ok (.adam (3/10000) (1/10000) [])
  | t => .error (t ++ " optimizer not supported")

/-- The optimizer carries no accumulated per-parameter state
(no momentum buffers / moment estimates). -/
def Optimizer.stateEmpty : Optimizer → Prop
  | .sgd _ _ _ bufs => bufs = []
  | .adam _ _ st => st = []

/-- Start of one pruning round (source lines 49-60): construct a fresh
optimizer, and for `i ≠ 0` load the previous round checkpoint, restoring
only `model_state_dict` into the model (line 60); the checkpoint field
`optimizer_state_dict` is never read. -/
def roundStart (optimizer_type : String) (i : ℕ) (current : Model)
    (ckpts : ℕ → Checkpoint) : Except String (Optimizer × Model) :=
  match mkOptimizer optimizer_type with
  | .error e => .error e
  | .ok o => .ok (o, if i ≠ 0 then (ckpts (i - 1)).model_state_dict else current)

/- ### Control-flow trace of the orchestrator (source lines 34-129) -/

/-- Observable actions of `prune_iteratively`, used to state where in the
control flow each collaborator is invoked. -/
inductive Ev where
  | mkOptim (r : ℕ)
  | loadCkpt (r : ℕ)
  | maskBuild (r j : ℕ)
  | permuteMasks (r j : ℕ)
  | weightReset (r : ℕ)
  | trainBatch (r e b : ℕ)
  | saveCkpt (r e : ℕ)
  | evalTest (r : ℕ)
deriving DecidableEq

/-- Concatenation of the lists produced for each element, in order. -/
def catMap {α β : Type} (g : α → List β) : List α → List β
  | [] => []
  | x :: xs => g x ++ catMap g xs

theorem mem_catMap {α β : Type} {e : β} {g : α → List β} :
    ∀ {l : List α}, e ∈ catMap g l ↔ ∃ x ∈ l, e ∈ g x := by
  intro l
  induction l with
  | nil => simp [catMap]
  | cons x xs ih => simp [catMap, ih, List.mem_append, or_and_right, exists_or]

/-- Architecture dispatch (source lines 34-41): epoch budget and
learning-rate anneal breakpoints per supported architecture. -/
def archConfig : String → Option (ℕ × List ℕ)
  | "vgg19" => some (160, [80, 120])
  | "resnet50" => some (90, [50, 65, 80])
  | _ => none

/-- Optimizer-name dispatch succeeds (source lines 51-56). -/
def optSupported (t : String) : Bool := t == "sgd" || t == "adam"

/-- Events of one pruning round `r` (source lines 49-129), for a model with
`nP` prunable tensors, `nB` training batches per epoch and epoch budget `E`:
optimizer construction; for `r ≠ 0` the checkpoint load and the per-tensor
mask building, with the permute branch taken inside the per-tensor loop in
random mode (lines 78-80); weight reset iff `random == "false"` (lines
83-84); the epoch/batch loop with the checkpoint save at the final epoch
(lines 90-121); evaluation for `r < 7` or `r % 3 == 0` (line 125). -/
def roundTrace (random : String) (nP nB E r : ℕ) : List Ev :=
  [Ev.mkOptim r]
    ++ (if r ≠ 0 then
          Ev.loadCkpt r ::
            catMap (fun j =>
              Ev.maskBuild r j ::
                (if random ≠ "false" then [Ev.permuteMasks r j] else []))
              (List.range nP)
        else [])
    ++ (if random = "false" then [Ev.weightReset r] else [])
    ++ catMap (fun e =>
          (List.range nB).map (fun b => Ev.trainBatch r (e + 1) b)
            ++ (if e + 1 = E then [Ev.saveCkpt r (e + 1)] else []))
        (List.range E)
    ++ (if r < 7 ∨ r % 3 = 0 then [Ev.evalTest r] else [])

/-- One iteration of the outer loop over pruning rounds: if an error was
already raised nothing more happens; otherwise the optimizer dispatch runs
first (source lines 51-56) and on success the round executes. -/
def pruneStep (opt random : String) (nP nB E : ℕ)
    (acc : List Ev × Option String) (r : ℕ) : List Ev × Option String :=
  match acc.2 with
  | some _ => acc
  | none =>
    if optSupported opt then (acc.1 ++ roundTrace random nP nB E r, none)
    else (acc.1, some (opt ++ " optimizer not supported"))

/-- The full orchestrator trace: architecture dispatch (source lines
34-41), then the loop `for pruning_iter in range(0, 31)` (line 49).
Returns the ordered event trace together with the raised error, if any. -/
def pruneTraceRun (arch opt random : String) (nP nB : ℕ) :
    List Ev × Option String :=
  match archConfig arch with
  | none => ([], some (arch ++ " architecture not supported"))
  | some (E, _) =>
    (List.range 31).foldl (pruneStep opt random nP nB E) ([], none)

/- ### Test-history accumulation (source lines 125-132) -/

/-- An element appended to one of the global history lists: either a scalar
(`HistItem.num`) or a reference to the history list object itself
(`HistItem.self`, produced by `xs.append(xs)`). -/
inductive HistItem where
  | num (v : ℚ)
  | self
deriving DecidableEq

/-- The history lists after the full run (source lines 125-129): for every
evaluated round the scalars `tl r`, `ta r` are computed by `test`, but the
append statements `test_accuracys.append(test_accuracys)` and
`test_losses.append(test_losses)` append each list to itself, so the
computed scalars are discarded. -/
def testHistories (_tl _ta : ℕ → ℚ) : List HistItem × List HistItem :=
  (List.range 31).foldl
    (fun acc r =>
      if r < 7 ∨ r % 3 = 0 then
        (acc.1 ++ [HistItem.self], acc.2 ++ [HistItem.self])
      else acc)
    ([], [])

/- ### Evaluation (`test`, source lines 135-165) -/

/-- Index of the first maximal entry, modelling
`torch.max(outputs.data, 1)`. -/
def argmaxIdx (l : List ℚ) : ℕ :=
  (l.foldl
    (fun (st : ℕ × ℕ × ℚ) x =>
      if st.2.2 < x then (st.2.1, st.2.1 + 1, x) else (st.1, st.2.1 + 1, st.2.2))
    (0, 0, l.headD 0)).1

/-- Round-half-to-even on rationals, the semantics of Python `round` for the
scale already applied. -/
def roundHalfEven (m : ℚ) : ℤ :=
  if m - (⌊m⌋ : ℚ) < 1/2 then ⌊m⌋
  else if (1/2 : ℚ) < m - (⌊m⌋ : ℚ) then ⌊m⌋ + 1
  else if ⌊m⌋ % 2 = 0 then ⌊m⌋ else ⌊m⌋ + 1

/-- Python `round(x, d)`: banker's rounding at `d` decimal places. -/
def pyRound (x : ℚ) (d : ℕ) : ℚ :=
  ((roundHalfEven (x * 10 ^ d) : ℤ) : ℚ) / 10 ^ d

/-- Result of the `test` function, together with the frame facts it
guarantees: the model it leaves behind and whether gradient tracking was
enabled during the accumulation (`with torch.no_grad()`, source line 154). -/
structure TestResult where
  loss : ℚ
  accuracy : ℚ
  modelAfter : Model
  gradTracking : Bool

/-- Body of the evaluation loop (source lines 155-162) on one batch of
(sample, label) pairs, accumulating (correct, total, total_loss): the
forward pass, the batch loss from the external criterion, the top-1
predictions and the count of matches. -/
def testBatchStep (fwd : Model → List ℚ → List ℚ)
    (criterion : List (List ℚ) → List ℕ → ℚ) (m : Model)
    (st : ℕ × ℕ × ℚ) (b : List (List ℚ × ℕ)) : ℕ × ℕ × ℚ :=
  let outputs := b.map (fun s => fwd m s.1)
  let labels := b.map (fun s => s.2)
  let loss := criterion outputs labels
  let predicted := outputs.map argmaxIdx
  (st.1 + (List.zipWith (fun p l => if p = l then (1 : ℕ) else 0) predicted labels).sum,
    st.2.1 + b.length,
    st.2.2 + loss)

/-- The `test` function (source lines 135-165): runs the accumulation under
`torch.no_grad()`, only reading the model, and returns the mean loss
rounded to 4 decimal places and the accuracy percentage rounded to 3. -/
def test (fwd : Model → List ℚ → List ℚ)
    (criterion : List (List ℚ) → List ℕ → ℚ) (m : Model)
    (batches : List (List (List ℚ × ℕ))) : TestResult :=
  let st := batches.foldl (testBatchStep fwd criterion m) (0, 0, 0)
  { loss := pyRound (st.2.2 / (st.2.1 : ℚ)) 4
    accuracy := pyRound ((st.1 : ℚ) / (st.2.1 : ℚ) * 100) 3
    modelAfter := m
    gradTracking := false }

/- ### Helper lemmas about rounding and the evaluation loop -/

theorem roundHalfEven_nonneg {m : ℚ} (hm : 0 ≤ m) : 0 ≤ roundHalfEven m := by
  unfold roundHalfEven
  have hf : 0 ≤ ⌊m⌋ := Int.floor_nonneg.2 hm
  split_ifs <;> omega

theorem roundHalfEven_le {m : ℚ} {B : ℤ} (h : m ≤ (B : ℚ)) :
    roundHalfEven m ≤ B := by
  unfold roundHalfEven
  have hfB : ⌊m⌋ ≤ B := by
    have := Int.floor_le_floor h
    simpa using this
  have hhalf : m - (⌊m⌋ : ℚ) ≥ 1/2 → ⌊m⌋ + 1 ≤ B := by
    intro hge
    have hlt : (⌊m⌋ : ℚ) < (B : ℚ) := by linarith
    have : ⌊m⌋ < B := by exact_mod_cast hlt
    omega
  split_ifs with h1 h2 h3
  · exact hfB
  · exact hhalf (le_of_lt h2)
  · exact hfB
  · exact hhalf (by linarith)

theorem pyRound_nonneg {x : ℚ} (d : ℕ) (h : 0 ≤ x) : 0 ≤ pyRound x d := by
  unfold pyRound
  have hm : (0 : ℚ) ≤ x * 10 ^ d := by positivity
  have := roundHalfEven_nonneg hm
  have hcast : (0 : ℚ) ≤ ((roundHalfEven (x * 10 ^ d) : ℤ) : ℚ) := by
    exact_mod_cast this
  positivity

theorem pyRound_le {x : ℚ} (d : ℕ) {B : ℤ} (h : x ≤ (B : ℚ)) :
    pyRound x d ≤ (B : ℚ) := by
  unfold pyRound
  have hpow : (0 : ℚ) < 10 ^ d := by positivity
  have hm : x * 10 ^ d ≤ ((B * 10 ^ d : ℤ) : ℚ) := by
    push_cast
    exact mul_le_mul_of_nonneg_right h (le_of_lt hpow)
  have hr : roundHalfEven (x * 10 ^ d) ≤ B * 10 ^ d := roundHalfEven_le hm
  rw [div_le_iff₀ hpow]
  calc ((roundHalfEven (x * 10 ^ d) : ℤ) : ℚ)
      ≤ ((B * 10 ^ d : ℤ) : ℚ) := by exact_mod_cast hr
    _ = (B : ℚ) * 10 ^ d := by push_cast; ring

theorem zipIndicator_sum_le :
    ∀ (P L : List ℕ),
      (List.zipWith (fun p l => if p = l then (1 : ℕ) else 0) P L).sum ≤ L.length
  | [], _ => by simp
  | _ :: _, [] => by simp
  | p :: P, l :: L => by
    simp only [List.zipWith_cons_cons, List.sum_cons, List.length_cons]
    have h := zipIndicator_sum_le P L
    split_ifs <;> omega

theorem test_fold_invariant (fwd : Model → List ℚ → List ℚ)
    (criterion : List (List ℚ) → List ℕ → ℚ) (m : Model)
    (hcrit : ∀ o l, 0 ≤ criterion o l) :
    ∀ (batches : List (List (List ℚ × ℕ))) (c t : ℕ) (L : ℚ),
      c ≤ t → 0 ≤ L →
      (batches.foldl (testBatchStep fwd criterion m) (c, t, L)).1 ≤
          (batches.foldl (testBatchStep fwd criterion m) (c, t, L)).2.1
        ∧ 0 ≤ (batches.foldl (testBatchStep fwd criterion m) (c, t, L)).2.2
        ∧ (batches.foldl (testBatchStep fwd criterion m) (c, t, L)).2.1 =
            t + (batches.map List.length).sum := by
  intro batches
  induction batches with
  | nil => intro c t L hct hL; simpa using ⟨hct, hL⟩
  | cons b bs ih =>
    intro c t L hct hL
    have hstep :
        testBatchStep fwd criterion m (c, t, L) b =
          (c + (List.zipWith (fun p l => if p = l then (1 : ℕ) else 0)
              ((b.map (fun s => fwd m s.1)).map argmaxIdx)
              (b.map (fun s => s.2))).sum,
            t + b.length,
            L + criterion (b.map (fun s => fwd m s.1)) (b.map (fun s => s.2))) := rfl
    have hzle : (List.zipWith (fun p l => if p = l then (1 : ℕ) else 0)
        ((b.map (fun s => fwd m s.1)).map argmaxIdx)
        (b.map (fun s => s.2))).sum ≤ b.length := by
      have := zipIndicator_sum_le
        ((b.map (fun s => fwd m s.1)).map argmaxIdx) (b.map (fun s => s.2))
      simpa using this
    have hct' : c + (List.zipWith (fun p l => if p = l then (1 : ℕ) else 0)
        ((b.map (fun s => fwd m s.1)).map argmaxIdx)
        (b.map (fun s => s.2))).sum ≤ t + b.length := by omega
    have hL' : 0 ≤ L + criterion (b.map (fun s => fwd m s.1)) (b.map (fun s => s.2)) :=
      add_nonneg hL (hcrit _ _)
    have := ih _ _ _ hct' hL'
    simp only [List.foldl_cons, hstep]
    refine ⟨this.1, this.2.1, ?_⟩
    rw [this.2.2]
    simp
    omega

/- ### Helper lemmas about the orchestrator trace -/

theorem foldl_pruneStep_err (opt random : String) (nP nB E : ℕ) :
    ∀ (l : List ℕ) (tr : List Ev) (e : String),
      l.foldl (pruneStep opt random nP nB E) (tr, some e) = (tr, some e) := by
  intro l
  induction l with
  | nil => intro tr e; rfl
  | cons a t ih => intro tr e; simpa [pruneStep] using ih tr e

theorem foldl_pruneStep_ok (opt random : String) (nP nB E : ℕ)
    (hopt : optSupported opt = true) :
    ∀ (l : List ℕ) (tr : List Ev),
      l.foldl (pruneStep opt random nP nB E) (tr, none) =
        (tr ++ catMap (roundTrace random nP nB E) l, none) := by
  intro l
  induction l with
  | nil => intro tr; simp [catMap]
  | cons a t ih =>
    intro tr
    have hstep : pruneStep opt random nP nB E (tr, none) a =
        (tr ++ roundTrace random nP nB E a, none) := by
      simp [pruneStep, hopt]
    rw [List.foldl_cons, hstep, ih]
    simp [catMap]

theorem foldl_pruneStep_bad (opt random : String) (nP nB E : ℕ)
    (hopt : optSupported opt = false) :
    ∀ (l : List ℕ) (tr : List Ev), l ≠ [] →
      l.foldl (pruneStep opt random nP nB E) (tr, none) =
        (tr, some (opt ++ " optimizer not supported")) := by
  intro l
  induction l with
  | nil => intro tr h; exact absurd rfl h
  | cons a t ih =>
    intro tr _
    have hstep : pruneStep opt random nP nB E (tr, none) a =
        (tr, some (opt ++ " optimizer not supported")) := by
      simp [pruneStep, hopt]
    rw [List.foldl_cons, hstep, foldl_pruneStep_err]

theorem pruneTraceRun_ok {arch : String} (opt random : String) (nP nB E : ℕ)
    {ann : List ℕ} (harch : archConfig arch = some (E, ann))
    (hopt : optSupported opt = true) :
    pruneTraceRun arch opt random nP nB =
      (catMap (roundTrace random nP nB E) (List.range 31), none) := by
  unfold pruneTraceRun
  rw [harch]
  simpa using foldl_pruneStep_ok opt random nP nB E hopt (List.range 31) []

theorem weightReset_roundTrace {random : String} {nP nB E r r' : ℕ} :
    Ev.weightReset r ∈ roundTrace random nP nB E r' ↔
      (r = r' ∧ random = "false") := by
  by_cases hrand : random = "false" <;> by_cases hr0 : r' ≠ 0 <;>
    by_cases hev : (r' < 7 ∨ r' % 3 = 0) <;>
      simp [roundTrace, hrand, hr0, hev, mem_catMap, eq_comm]

theorem evalTest_roundTrace {random : String} {nP nB E r r' : ℕ} :
    Ev.evalTest r ∈ roundTrace random nP nB E r' ↔
      (r = r' ∧ (r' < 7 ∨ r' % 3 = 0)) := by
  by_cases hrand : random = "false" <;> by_cases hr0 : r' ≠ 0 <;>
    by_cases hev : (r' < 7 ∨ r' % 3 = 0) <;>
      simp [roundTrace, hrand, hr0, hev, mem_catMap, eq_comm] <;> tauto

/- ### Claim theorems -/

/-- C1 (counterexample): the mask is NOT reapplied after the optimizer step.
For round 1, a single prunable tensor with mask entry 0 and a nonzero
gradient at that position: after one training batch (mask application before
the forward pass, then the SGD step with lr = 0.1, momentum = 0.9, weight
decay = 0.0001) the pruned weight equals -1/10, which is not zero. -/
theorem c1_counterexample :
    (([[0]] : List Tensor).getD 0 []).getD 0 1 = 0
    ∧ (prunables (trainBatchStep (1/10) (9/10) (1/10000) [[0]] 1 [[1]]
        [("conv.weight", [5])] []).1).getD 0 ("", []) = ("conv.weight", [-(1/10)])
    ∧ (-(1/10) : ℚ) ≠ 0 := by
  refine ⟨by rfl, ?_, by norm_num⟩
  have hw : hasWeight "conv.weight" = true := by decide
  simp [trainBatchStep, applyMasks, applyMasksGo, sgdStepGo, sgdStepParam,
    prunables, hw]

/-- C1 (amended): for every round i > 0 the mask is reapplied to every
prunable tensor BEFORE the forward pass of each training batch (and again
before the final-epoch checkpoint save), so every weight position with mask
entry 0 is exactly zero at those points; immediately after the optimizer
step a pruned position may be nonzero until the next reapplication. The
first conjunct records that the batch step is exactly the SGD step taken
from the mask-applied state. -/
theorem c1_amended_mask_timing (lr mom wd : ℚ) (masks grads : List Tensor)
    (m : Model) (bufs : List (Option Tensor)) (i j k : ℕ)
    (hi : i ≠ 0)
    (hlen : (masks.getD j []).length = ((prunables m).getD j ("", [])).2.length)
    (hk : k < (masks.getD j []).length)
    (hmask : (masks.getD j []).getD k 1 = 0) :
    trainBatchStep lr mom wd masks i grads m bufs
        = sgdStepGo lr mom wd (applyMasks masks m) grads bufs
    ∧ (((prunables (applyMasks masks m)).getD j ("", [])).2).getD k 1 = 0 :=
  ⟨by simp [trainBatchStep, hi], applyMasks_masked_zero masks m j k hlen hk hmask⟩

/-- Witness for the amended C1 at a concrete input. -/
theorem c1_amended_witness :
    ((1 : ℕ) ≠ 0)
    ∧ (((prunables (applyMasks [[0]] [("conv.weight", [5])])).getD 0 ("", [])).2).getD 0 1 = 0 :=
  ⟨by decide,
    (c1_amended_mask_timing (1/10) (9/10) (1/10000) [[0]] [[1]]
      [("conv.weight", [5])] [] 1 0 0 (by decide) (by decide) (by decide)
      (by decide)).2⟩

/-- C2: for any round percentile value q, the mask builder computes a single
global threshold (the percentile of the concatenated absolute prunable
weights) and produces, per prunable tensor independently and in
named-parameter iteration order, a mask with entry 1 exactly where the
absolute weight exceeds the threshold: the loop equals the §4.2 contract. -/
theorem c2_mask_builder (m : Model) (f : List Tensor → List Tensor) (q : ℚ) :
    (buildMasksLoop m "false" f q).masks = maskBuilderSpec m q
    ∧ (buildMasksLoop m "false" f q).masks.length = (prunables m).length := by
  refine ⟨buildMasksLoop_masks m f q, ?_⟩
  rw [buildMasksLoop_masks]
  unfold maskBuilderSpec
  simp

/-- C3: in the non-random variant, masks are a refinement across consecutive
rounds: the round r checkpoint is saved with the round r masks applied
(source lines 114-121), so a position pruned in round r loads as exactly
zero in round r+1; since the new threshold is a percentile of absolute
values it is nonnegative, and the strict comparison `gt` keeps the position
pruned in the new mask. -/
theorem c3_mask_refinement (trained : Model) (prevMasks : List Tensor)
    (f : List Tensor → List Tensor) (q : ℚ) (j k : ℕ)
    (hlen : (prevMasks.getD j []).length =
      ((prunables trained).getD j ("", [])).2.length)
    (hk : k < (prevMasks.getD j []).length)
    (hprev : (prevMasks.getD j []).getD k 1 = 0) :
    ((buildMasksLoop (applyMasks prevMasks trained) "false" f q).masks.getD j
      []).getD k 1 = 0 := by
  have hthr := threshold_nonneg (applyMasks prevMasks trained) q
  rw [buildMasksLoop_masks]
  unfold maskBuilderSpec
  have hj : j < (prunables trained).length := by
    by_contra hj
    push_neg at hj
    rw [List.getD_eq_default _ _ hj] at hlen
    have hzero : (prevMasks.getD j []).length = 0 := by simpa using hlen
    omega
  have hj' : j < (prunables (applyMasks prevMasks trained)).length := by
    unfold applyMasks
    rw [prunables_applyMasksGo_length]
    exact hj
  have hmap : ((prunables (applyMasks prevMasks trained)).map
      (fun p => maskOf (threshold (applyMasks prevMasks trained) q) p.2)).getD j []
      = maskOf (threshold (applyMasks prevMasks trained) q)
          (((prunables (applyMasks prevMasks trained)).getD j ("", [])).2) := by
    rw [List.getD_eq_getElem _ _ (by simpa using hj'), List.getElem_map,
      List.getD_eq_getElem _ _ hj']
  rw [hmap]
  have hpr : (prunables (applyMasks prevMasks trained)).getD j ("", [])
      = (((prunables trained).getD j ("", [])).1,
          List.zipWith (fun ti mi => ti * mi)
            ((prunables trained).getD j ("", [])).2 (prevMasks.getD j [])) := by
    have := prunables_applyMasksGo prevMasks trained 0 j
    simpa [applyMasks] using this
  rw [hpr]
  have hkzip : k < (List.zipWith (fun ti mi => ti * mi)
      ((prunables trained).getD j ("", [])).2 (prevMasks.getD j [])).length := by
    rw [List.length_zipWith]
    omega
  unfold maskOf
  rw [List.getD_eq_getElem _ _ (by simpa using hkzip), List.getElem_map,
    List.getElem_zipWith]
  have h0 : (prevMasks.getD j [])[k] = 0 := by
    have := hprev
    rw [List.getD_eq_getElem _ _ hk] at this
    exact this
  rw [h0, mul_zero, abs_zero, if_neg (not_lt.mpr hthr)]

/-- Witness for C3 at a concrete input. -/
theorem c3_witness :
    ((0 : ℕ) < 2)
    ∧ ((buildMasksLoop (applyMasks [[0, 1]] [("w.weight", [3, 4])]) "false" id
        50).masks.getD 0 []).getD 0 1 = 0 :=
  ⟨by decide,
    c3_mask_refinement [("w.weight", [3, 4])] [[0, 1]] id 50 0 0 (by decide)
      (by decide) (by decide)⟩

/-- C4 (code bug): in random-ticket mode the `masks = permute_masks(masks)`
reassignment sits inside the per-tensor loop (source lines 78-80), so for a
model with two prunable tensors the permuter is invoked twice in the round,
not once after all masks are built. -/
theorem c4_permute_per_tensor :
    (buildMasksLoop [("a.weight", [1]), ("b.weight", [2])] "true" id 50).nperm = 2
    ∧ (2 : ℕ) ≠ 1 := by
  refine ⟨by decide, by decide⟩

/-- C5 (code bug): the history appends at source lines 128-129 append each
accumulator list to itself instead of the freshly computed scalars, so after
the run both histories consist of 15 self-references (one per evaluated
round) and contain no scalar entry at all. -/
theorem c5_history_self_append (tl ta : ℕ → ℚ) :
    (testHistories tl ta).1 = List.replicate 15 HistItem.self
    ∧ (testHistories tl ta).2 = List.replicate 15 HistItem.self
    ∧ ∀ r : ℕ, HistItem.num (ta r) ∉ (testHistories tl ta).1 := by
  refine ⟨by rfl, by rfl, ?_⟩
  intro r
  have h1 : (testHistories tl ta).1 = List.replicate 15 HistItem.self := by rfl
  rw [h1]
  simp [List.mem_replicate]

/-- C6: the weight reset (loading the initialization snapshot) happens in a
round exactly when the run is not in random-ticket mode
(`if random == "false"`, source lines 83-84), for every round of the loop. -/
theorem c6_weight_reset_iff (arch opt random : String) (nP nB E : ℕ)
    (ann : List ℕ) (r : ℕ)
    (harch : archConfig arch = some (E, ann))
    (hopt : optSupported opt = true)
    (hr : r < 31) :
    (Ev.weightReset r ∈ (pruneTraceRun arch opt random nP nB).1 ↔
      random = "false") := by
  rw [pruneTraceRun_ok opt random nP nB E harch hopt]
  show Ev.weightReset r ∈ catMap (roundTrace random nP nB E) (List.range 31) ↔ _
  rw [mem_catMap]
  constructor
  · rintro ⟨r', _, hmem⟩
    exact (weightReset_roundTrace.1 hmem).2
  · intro hrand
    exact ⟨r, List.mem_range.2 hr, weightReset_roundTrace.2 ⟨rfl, hrand⟩⟩

/-- Witness for C6 at a concrete configuration. -/
theorem c6_witness :
    ((0 : ℕ) < 31)
    ∧ (Ev.weightReset 0 ∈ (pruneTraceRun "vgg19" "sgd" "false" 1 1).1 ↔
        "false" = "false") :=
  ⟨by decide,
    c6_weight_reset_iff "vgg19" "sgd" "false" 1 1 160 [80, 120] 0 rfl rfl
      (by decide)⟩

/-- C7: an unsupported architecture name or optimizer name makes the run
raise an error (source lines 40-41 and 55-56) with no training batch ever
processed. -/
theorem c7_fail_fast (arch opt random : String) (nP nB : ℕ)
    (h : archConfig arch = none ∨ optSupported opt = false) :
    (pruneTraceRun arch opt random nP nB).2.isSome = true
    ∧ ∀ r e b, Ev.trainBatch r e b ∉ (pruneTraceRun arch opt random nP nB).1 := by
  rcases h with h | h
  · unfold pruneTraceRun
    rw [h]
    exact ⟨rfl, by simp⟩
  · cases harch : archConfig arch with
    | none =>
      unfold pruneTraceRun
      rw [harch]
      exact ⟨rfl, by simp⟩
    | some cfg =>
      obtain ⟨E, ann⟩ := cfg
      simp only [pruneTraceRun, harch]
      rw [foldl_pruneStep_bad opt random nP nB E h (List.range 31) []
        (by simp [List.range_eq_nil])]
      exact ⟨rfl, by simp⟩

/-- Witness for C7 at a concrete unsupported architecture. -/
theorem c7_witness :
    (archConfig "alexnet" = none ∨ optSupported "sgd" = false)
    ∧ ((pruneTraceRun "alexnet" "sgd" "true" 1 1).2.isSome = true
        ∧ ∀ r e b, Ev.trainBatch r e b ∉ (pruneTraceRun "alexnet" "sgd" "true" 1 1).1) :=
  ⟨Or.inl rfl, c7_fail_fast "alexnet" "sgd" "true" 1 1 (Or.inl rfl)⟩

/-- C9: evaluation runs after round r exactly when r ≤ 6 or r is a multiple
of 3 (`if pruning_iter < 7 or pruning_iter % 3 == 0`, source line 125). -/
theorem c9_eval_schedule (arch opt random : String) (nP nB E : ℕ)
    (ann : List ℕ) (r : ℕ)
    (harch : archConfig arch = some (E, ann))
    (hopt : optSupported opt = true)
    (hr : r < 31) :
    (Ev.evalTest r ∈ (pruneTraceRun arch opt random nP nB).1 ↔
      (r ≤ 6 ∨ r % 3 = 0)) := by
  rw [pruneTraceRun_ok opt random nP nB E harch hopt]
  show Ev.evalTest r ∈ catMap (roundTrace random nP nB E) (List.range 31) ↔ _
  rw [mem_catMap]
  constructor
  · rintro ⟨r', _, hmem⟩
    obtain ⟨rfl, hc⟩ := evalTest_roundTrace.1 hmem
    exact hc.imp (fun h => Nat.lt_succ_iff.mp h) id
  · intro hc
    exact ⟨r, List.mem_range.2 hr,
      evalTest_roundTrace.2 ⟨rfl, hc.imp (fun h => Nat.lt_succ_iff.mpr h) id⟩⟩

/-- Witness for C9 at a concrete configuration and round. -/
theorem c9_witness :
    ((9 : ℕ) < 31)
    ∧ (Ev.evalTest 9 ∈ (pruneTraceRun "resnet50" "adam" "false" 1 1).1 ↔
        ((9 : ℕ) ≤ 6 ∨ (9 : ℕ) % 3 = 0)) :=
  ⟨by decide,
    c9_eval_schedule "resnet50" "adam" "false" 1 1 90 [50, 65, 80] 9 rfl rfl
      (by decide)⟩

/-- C10: at the start of every round a fresh optimizer with empty
per-parameter state is constructed (source lines 51-54), and for i > 0 the
checkpoint read restores only `model_state_dict` (line 60): the result is
insensitive to the checkpoints' `optimizer_state_dict` fields. -/
theorem c10_fresh_optimizer (t : String) (i : ℕ) (cur : Model)
    (ckpts ckpts' : ℕ → Checkpoint) (o : Optimizer)
    (hi : i ≠ 0) (ho : mkOptimizer t = .ok o)
    (hm : ∀ j, (ckpts j).model_state_dict = (ckpts' j).model_state_dict) :
    roundStart t i cur ckpts = .ok (o, (ckpts (i - 1)).model_state_dict)
    ∧ o.stateEmpty
    ∧ roundStart t i cur ckpts = roundStart t i cur ckpts' := by
  have hempty : o.stateEmpty := by
    unfold mkOptimizer at ho
    split at ho
    · injection ho with h
      subst h
      rfl
    · injection ho with h
      subst h
      rfl
    · exact absurd ho (by simp)
  refine ⟨?_, hempty, ?_⟩
  · unfold roundStart
    rw [ho]
    simp [hi]
  · unfold roundStart
    rw [ho]
    simp [hi, hm (i - 1)]

/-- Witness for C10 at a concrete checkpoint family: the two families agree
on model states but differ in optimizer state, and the round start ignores
the difference. -/
theorem c10_witness :
    ((1 : ℕ) ≠ 0)
    ∧ roundStart "sgd" 1 [] (fun _ => ⟨160, [("a.weight", [2])], [some [7]]⟩)
        = .ok (.sgd (1/10) (9/10) (1/10000) [], [("a.weight", [2])])
    ∧ (Optimizer.sgd (1/10) (9/10) (1/10000) []).stateEmpty
    ∧ roundStart "sgd" 1 [] (fun _ => ⟨160, [("a.weight", [2])], [some [7]]⟩)
        = roundStart "sgd" 1 [] (fun _ => ⟨160, [("a.weight", [2])], [none]⟩) := by
  have h := c10_fresh_optimizer "sgd" 1 []
    (fun _ => ⟨160, [("a.weight", [2])], [some [7]]⟩)
    (fun _ => ⟨160, [("a.weight", [2])], [none]⟩)
    (.sgd (1/10) (9/10) (1/10000) []) (by decide) rfl (fun j => rfl)
  exact ⟨by decide, h.1, h.2.1, h.2.2⟩

/-- C8: for a non-empty sequence of non-empty evaluation batches and a
nonnegative (cross-entropy) criterion, `test` runs with gradient tracking
disabled, returns a loss that is nonnegative and an accuracy percentage in
[0, 100] (each rounded as in the source), and leaves the model unchanged. -/
theorem c8_test_contract (fwd : Model → List ℚ → List ℚ)
    (criterion : List (List ℚ) → List ℕ → ℚ) (m : Model)
    (batches : List (List (List ℚ × ℕ)))
    (hne : batches ≠ [])
    (hb : ∀ b ∈ batches, b ≠ [])
    (hcrit : ∀ o l, 0 ≤ criterion o l) :
    0 ≤ (test fwd criterion m batches).loss
    ∧ 0 ≤ (test fwd criterion m batches).accuracy
    ∧ (test fwd criterion m batches).accuracy ≤ 100
    ∧ (test fwd criterion m batches).modelAfter = m
    ∧ (test fwd criterion m batches).gradTracking = false := by
  obtain ⟨b0, rest, rfl⟩ : ∃ b0 rest, batches = b0 :: rest := by
    cases batches with
    | nil => exact absurd rfl hne
    | cons a t => exact ⟨a, t, rfl⟩
  have hinv := test_fold_invariant fwd criterion m hcrit (b0 :: rest) 0 0 0
    (le_refl 0) (le_refl 0)
  set st := (b0 :: rest).foldl (testBatchStep fwd criterion m) (0, 0, 0) with hst
  have hb0 : 1 ≤ b0.length := by
    have hne0 := hb b0 (by simp)
    cases b0 with
    | nil => exact absurd rfl hne0
    | cons x xs => simp
  have htot : 1 ≤ st.2.1 := by
    have h22 := hinv.2.2
    have hsum : ((b0 :: rest).map List.length).sum =
        b0.length + (rest.map List.length).sum := by simp
    omega
  have htotQ : (0 : ℚ) < (st.2.1 : ℚ) := by exact_mod_cast htot
  have hL : (test fwd criterion m (b0 :: rest)).loss =
      pyRound (st.2.2 / (st.2.1 : ℚ)) 4 := rfl
  have hA : (test fwd criterion m (b0 :: rest)).accuracy =
      pyRound ((st.1 : ℚ) / (st.2.1 : ℚ) * 100) 3 := rfl
  refine ⟨?_, ?_, ?_, rfl, rfl⟩
  · rw [hL]
    exact pyRound_nonneg 4 (div_nonneg hinv.2.1 (le_of_lt htotQ))
  · rw [hA]
    refine pyRound_nonneg 3 ?_
    have : (0 : ℚ) ≤ (st.1 : ℚ) / (st.2.1 : ℚ) :=
      div_nonneg (by positivity) (le_of_lt htotQ)
    linarith
  · rw [hA]
    have hfrac : (st.1 : ℚ) / (st.2.1 : ℚ) ≤ 1 := by
      rw [div_le_one htotQ]
      exact_mod_cast hinv.1
    have hle : (st.1 : ℚ) / (st.2.1 : ℚ) * 100 ≤ ((100 : ℤ) : ℚ) := by
      push_cast
      linarith
    have := pyRound_le 3 hle
    exact le_trans this (by norm_num)

/-- Witness for C8 at a concrete batch list. -/
theorem c8_witness :
    ([[([(1 : ℚ)], 0)]] ≠ ([] : List (List (List ℚ × ℕ))))
    ∧ 0 ≤ (test (fun _ _ => [(1 : ℚ)]) (fun _ _ => 0) []
        [[([(1 : ℚ)], 0)]]).loss
    ∧ 0 ≤ (test (fun _ _ => [(1 : ℚ)]) (fun _ _ => 0) []
        [[([(1 : ℚ)], 0)]]).accuracy
    ∧ (test (fun _ _ => [(1 : ℚ)]) (fun _ _ => 0) []
        [[([(1 : ℚ)], 0)]]).accuracy ≤ 100
    ∧ (test (fun _ _ => [(1 : ℚ)]) (fun _ _ => 0) []
        [[([(1 : ℚ)], 0)]]).modelAfter = []
    ∧ (test (fun _ _ => [(1 : ℚ)]) (fun _ _ => 0) []
        [[([(1 : ℚ)], 0)]]).gradTracking = false := by
  have h := c8_test_contract (fun _ _ => [(1 : ℚ)]) (fun _ _ => 0) []
    [[([(1 : ℚ)], 0)]] (by simp) (by simp) (fun o l => le_refl 0)
  exact ⟨by simp, h.1, h.2.1, h.2.2.1, h.2.2.2.1, h.2.2.2.2⟩
